import Mathlib

/-!
Verification of the ArXiv daily-pipeline repository: a shallow embedding of
the storage layer (src/data/storage.ts), the fetcher (arxivService.ts,
fetch part) and the LLM filter/analyze stages (arxivService.ts, LLM part),
together with proofs settling the frozen claims about them.

Modelling conventions:
* `localStorage` is an insertion-ordered association list of key/value
  pairs; `setItem` on an existing key replaces the value in place, on a
  fresh key appends at the end; `key(i)`/`length` index that list, so the
  live-index iteration of `cleanupDirectory` is reproduced exactly.
* JSON payloads are modelled by the typed `StoredValue` inductive instead
  of strings (serialisation round-trips for these payloads).
* Timestamps are epoch milliseconds (`Int`); `new Date(s).getDay()` is
  modelled in UTC: epoch day zero was a Thursday (= 4).
* Fractional day arithmetic is done in `Rat` (the source uses JS numbers;
  the literals 4.0 and 1.2 are taken at their decimal value).
* Network and LLM calls are environment parameters: a call's observable
  outcome (response, transport error, parse result) is an input to the
  embedded function.
-/

/-- `ArxivPaper` from src/types (part_001): one normalized paper record.
`published` is the epoch-millisecond timestamp denoted by the ISO string. -/
structure ArxivPaper where
  id : String
  title : String
  summary : String
  authors : List String
  published : Int
  link : String
  categories : List String
  comment : String
deriving DecidableEq

/-- `AnalyzedPaper` from src/types: a paper plus scoring fields and the three
optional deep-analysis fields (absent JSON fields are `none`). -/
structure AnalyzedPaper extends ArxivPaper where
  relevanceScore : Rat
  tags : List String
  hasCode : Bool
  isAccepted : Bool
  reasoning : String
  innovations : Option String
  methodology : Option String
  value : Option String
deriving DecidableEq

/-! ## The key-value store (localStorage) -/

/-- Typed stand-in for the JSON strings held by the store. -/
inductive StoredValue where
  | rawSnap (date : String) (papers : List ArxivPaper)
  | filteredSnap (date : String) (papers : List AnalyzedPaper)
  | reportSnap (date : String) (timestamp : Nat) (papers : List AnalyzedPaper)
  | manifestVal (dates : List String)
  | settingVal (s : String)
deriving DecidableEq

/-- The store: insertion-ordered key/value pairs (unique keys in any state
reachable by the operations below). -/
abbrev Store := List (String × StoredValue)

/-- `localStorage.getItem`: value of the first pair carrying the key. -/
def getItem (st : Store) (k : String) : Option StoredValue :=
  (st.find? (fun e => decide (e.1 = k))).map (fun e => e.2)

/-- `localStorage.setItem`: replace in place if the key exists, else append. -/
def setItem : Store → String → StoredValue → Store
  | [], k, v => [(k, v)]
  | e :: rest, k, v => if e.1 = k then (k, v) :: rest else e :: setItem rest k v

/-- `localStorage.removeItem`: drop the (unique) pair carrying the key. -/
def removeItem : Store → String → Store
  | [], _ => []
  | e :: rest, k => if e.1 = k then rest else e :: removeItem rest k

/-- JS `String.prototype.startsWith`, used as `key.startsWith(dirPrefix)`. -/
def strStartsWith (s p : String) : Bool := decide (p.data <+: s.data)

def keys (st : Store) : List String := st.map (fun e => e.1)

@[simp] theorem getItem_nil (k : String) : getItem [] k = none := rfl

@[simp] theorem getItem_cons (e : String × StoredValue) (rest : Store) (k : String) :
    getItem (e :: rest) k = if e.1 = k then some e.2 else getItem rest k := by
  by_cases h : e.1 = k <;> simp [getItem, List.find?_cons, h]

theorem getItem_setItem_self (st : Store) (k : String) (v : StoredValue) :
    getItem (setItem st k v) k = some v := by
  induction st with
  | nil => simp [setItem]
  | cons e rest ih => by_cases h : e.1 = k <;> simp [setItem, h, ih]

theorem getItem_setItem_ne (st : Store) (k k' : String) (v : StoredValue) (h : k' ≠ k) :
    getItem (setItem st k v) k' = getItem st k' := by
  induction st with
  | nil =>
    have : ¬(k = k') := fun hh => h hh.symm
    simp [setItem, this]
  | cons e rest ih =>
    by_cases he : e.1 = k
    · subst he
      have hk' : ¬(e.1 = k') := fun hh => h (hh ▸ rfl)
      simp [setItem, hk']
    · simp only [setItem, if_neg he]
      by_cases he' : e.1 = k' <;> simp [he', ih]

theorem getItem_removeItem_ne (st : Store) (k k' : String) (h : k' ≠ k) :
    getItem (removeItem st k) k' = getItem st k' := by
  induction st with
  | nil => simp [removeItem]
  | cons e rest ih =>
    by_cases he : e.1 = k
    · subst he
      have hk' : ¬(e.1 = k') := fun hh => h (hh ▸ rfl)
      simp [removeItem, hk']
    · by_cases he' : e.1 = k'
      · simp only [removeItem, if_neg he, getItem_cons, if_pos he']
      · simp only [removeItem, if_neg he, getItem_cons, if_neg he']
        exact ih

theorem mem_keys_of_getItem_ne_none (st : Store) (k : String) (h : getItem st k ≠ none) :
    k ∈ keys st := by
  induction st with
  | nil => simp at h
  | cons e rest ih =>
    by_cases he : e.1 = k
    · exact he ▸ List.mem_cons_self _ _
    · simp only [getItem_cons, if_neg he] at h
      exact List.mem_cons_of_mem _ (ih h)

theorem getItem_removeItem_self (st : Store) (k : String) (h : (keys st).Nodup) :
    getItem (removeItem st k) k = none := by
  induction st with
  | nil => simp [removeItem]
  | cons e rest ih =>
    simp only [keys, List.map_cons, List.nodup_cons] at h
    by_cases he : e.1 = k
    · subst he
      simp only [removeItem, if_pos rfl]
      cases hg : getItem rest e.1 with
      | none => exact hg
      | some v =>
        exact absurd (mem_keys_of_getItem_ne_none rest e.1 (by simp [hg])) h.1
    · simp [removeItem, he, ih h.2]

theorem removeItem_sublist (st : Store) (k : String) : List.Sublist (removeItem st k) st := by
  induction st with
  | nil => simp [removeItem]
  | cons e rest ih =>
    by_cases he : e.1 = k
    · simp only [removeItem, if_pos he]
      exact (List.sublist_cons_self e rest)
    · simp only [removeItem, if_neg he]
      exact ih.cons₂ e

theorem keys_removeItem_nodup (st : Store) (k : String) (h : (keys st).Nodup) :
    (keys (removeItem st k)).Nodup := by
  have hs := (removeItem_sublist st k).map (fun e : String × StoredValue => e.1)
  simpa [keys] using hs.nodup (by simpa [keys] using h)

theorem mem_keys_setItem (st : Store) (k k' : String) (v : StoredValue) :
    k' ∈ keys (setItem st k v) ↔ k' ∈ keys st ∨ k' = k := by
  induction st with
  | nil => simp [setItem, keys]
  | cons e rest ih =>
    by_cases he : e.1 = k
    · subst he
      simp [setItem, keys]
      tauto
    · simp only [setItem, if_neg he, keys, List.map_cons, List.mem_cons]
      rw [show (keys (setItem rest k v) = List.map (fun e => e.1) (setItem rest k v)) from rfl] at ih
      rw [ih]
      simp [keys]
      tauto

theorem keys_setItem_nodup (st : Store) (k : String) (v : StoredValue) (h : (keys st).Nodup) :
    (keys (setItem st k v)).Nodup := by
  induction st with
  | nil => simp [setItem, keys]
  | cons e rest ih =>
    simp only [keys, List.map_cons, List.nodup_cons] at h
    by_cases he : e.1 = k
    · subst he
      simpa [setItem, keys, List.nodup_cons] using h
    · simp only [setItem, if_neg he, keys, List.map_cons, List.nodup_cons]
      refine ⟨?_, ih h.2⟩
      intro hmem
      rcases (mem_keys_setItem rest k e.1 v).mp hmem with hm | hm
      · exact h.1 hm
      · exact he hm

/-! ## Paths and the directory-cleanup loop (storage.ts) -/

def PATH_RAW_DIR : String := "data/raw/"
def PATH_FILTERED_DIR : String := "data/filtered/"
def PATH_REPORTS_DIR : String := "data/reports/"
def PATH_MANIFEST : String := "data/reports/manifest.json"

def getRawPath (date : String) : String := PATH_RAW_DIR ++ date ++ ".json"
def getFilteredPath (date : String) : String := PATH_FILTERED_DIR ++ date ++ ".json"
def getReportPath (date : String) : String := PATH_REPORTS_DIR ++ date ++ ".json"

/-- The body of `StorageService.cleanupDirectory`'s for-loop:
`for (let i = 0; i < localStorage.length; i++) { ... removeItem ... }` with the
index `i` and the live `length` read off the mutated store, exactly as in the
source. The fuel argument only bounds the iteration count; it is started at
the store's length, which the loop can never exceed because `i` grows by one
per iteration while the length never grows. -/
def cleanupAux (pfx cur : String) : Nat → Nat → Store → Store
  | 0, _, st => st
  | fuel + 1, i, st =>
    if h : i < st.length then
      if strStartsWith (st.get ⟨i, h⟩).1 pfx ∧ (st.get ⟨i, h⟩).1 ≠ cur then
        cleanupAux pfx cur fuel (i + 1) (removeItem st (st.get ⟨i, h⟩).1)
      else
        cleanupAux pfx cur fuel (i + 1) st
    else st

/-- `StorageService.cleanupDirectory(dirPrefix, currentFile)`. -/
def cleanupDirectory (st : Store) (dirPrefix currentFile : String) : Store :=
  cleanupAux dirPrefix currentFile st.length 0 st

/-- `StorageService.saveRawData` (storage.ts lines 20-45), with the current
date passed explicitly and the best-effort cloud mirror omitted (it never
changes the local store). -/
def saveRawData (st : Store) (todayStr : String) (papers : List ArxivPaper) : Store :=
  let filePath := getRawPath todayStr
  let st1 := setItem st filePath (StoredValue.rawSnap todayStr papers)
  cleanupDirectory st1 PATH_RAW_DIR filePath

/-- `StorageService.saveFilteredData` (storage.ts lines 71-95). -/
def saveFilteredData (st : Store) (todayStr : String) (papers : List AnalyzedPaper) : Store :=
  let filePath := getFilteredPath todayStr
  let st1 := setItem st filePath (StoredValue.filteredSnap todayStr papers)
  cleanupDirectory st1 PATH_FILTERED_DIR filePath

/-- `StorageService.getManifest` (storage.ts lines 163-170): a missing or
non-manifest value parses to the empty list. -/
def getManifest (st : Store) : List String :=
  match getItem st PATH_MANIFEST with
  | some (StoredValue.manifestVal dates) => dates
  | _ => []

/-- `StorageService.saveReport` (storage.ts lines 117-161): write today's
report file, prepend today to the manifest if absent, and if the manifest now
exceeds 7 entries delete the report files beyond the 7th and truncate the
manifest. The cloud mirror is omitted as above. -/
def saveReport (st : Store) (todayStr : String) (ts : Nat) (papers : List AnalyzedPaper) : Store :=
  let filePath := getReportPath todayStr
  let st1 := setItem st filePath (StoredValue.reportSnap todayStr ts papers)
  let manifest := getManifest st1
  let manifest1 := if todayStr ∈ manifest then manifest else todayStr :: manifest
  let st2 :=
    if todayStr ∈ manifest then st1
    else setItem st1 PATH_MANIFEST (StoredValue.manifestVal manifest1)
  if manifest1.length > 7 then
    let toRemove := manifest1.drop 7
    let toKeep := manifest1.take 7
    let st3 := toRemove.foldl (fun s d => removeItem s (getReportPath d)) st2
    setItem st3 PATH_MANIFEST (StoredValue.manifestVal toKeep)
  else st2

/-- A run of consecutive `saveReport` commits, each given by a date, a
timestamp and a payload. -/
def runReports (commits : List (String × Nat × List AnalyzedPaper)) (st : Store) : Store :=
  commits.foldl (fun s c => saveReport s c.1 c.2.1 c.2.2) st

/-! ### String-path facts -/

theorem string_data_inj (a b : String) (h : a.data = b.data) : a = b := by
  cases a
  cases b
  exact congrArg String.mk h

theorem strStartsWith_append (p r : String) : strStartsWith (p ++ r) p = true := by
  simp [strStartsWith, String.data_append, List.prefix_append]

theorem ne_of_not_startsWith (k p r : String) (h : strStartsWith k p = false) :
    k ≠ p ++ r := by
  intro hk
  rw [hk, strStartsWith_append] at h
  cases h

theorem getReportPath_inj (d d' : String) (h : getReportPath d = getReportPath d') :
    d = d' := by
  have h2 := congrArg String.data h
  simp only [getReportPath, PATH_REPORTS_DIR, String.data_append] at h2
  exact string_data_inj d d' (List.append_cancel_left (List.append_cancel_right h2))

theorem manifest_as_reportPath : PATH_MANIFEST = getReportPath "manifest" := rfl

theorem getReportPath_ne_manifest (d : String) (h : d ≠ "manifest") :
    getReportPath d ≠ PATH_MANIFEST := by
  rw [manifest_as_reportPath]
  intro hc
  exact h (getReportPath_inj d "manifest" hc)

/-! ### Frame property of the cleanup loop -/

theorem getItem_cleanupAux_of_not_startsWith (pfx cur : String) (fuel : Nat) :
    ∀ (i : Nat) (st : Store) (k : String), strStartsWith k pfx = false →
    getItem (cleanupAux pfx cur fuel i st) k = getItem st k := by
  induction fuel with
  | zero => intro i st k _; rfl
  | succ f ih =>
    intro i st k hk
    simp only [cleanupAux]
    by_cases hlt : i < st.length
    · simp only [dif_pos hlt]
      by_cases hcond : strStartsWith (st.get ⟨i, hlt⟩).1 pfx ∧ (st.get ⟨i, hlt⟩).1 ≠ cur
      · rw [if_pos hcond, ih (i + 1) _ k hk]
        apply getItem_removeItem_ne
        intro hkk
        rw [hkk] at hk
        rw [hcond.1] at hk
        cases hk
      · rw [if_neg hcond]
        exact ih (i + 1) st k hk
    · simp only [dif_neg hlt]

theorem getItem_cleanupDirectory_of_not_startsWith (st : Store) (pfx cur k : String)
    (h : strStartsWith k pfx = false) :
    getItem (cleanupDirectory st pfx cur) k = getItem st k :=
  getItem_cleanupAux_of_not_startsWith pfx cur st.length 0 st k h

/-- CLAIM C10. A commit to one storage channel never mutates keys outside that
channel's namespace: for every store state, a `saveRawData` commit (which
writes `data/raw/<date>.json` and sweeps the `data/raw/` directory) leaves
every key not starting with `data/raw/` unchanged — filtered snapshots,
report snapshots, the manifest and settings keys among them — and likewise
`saveFilteredData` leaves every key not starting with `data/filtered/`
unchanged, raw snapshots included. Each conjunct assumes only that the key
lies outside the committing channel's own namespace. -/
theorem cleanup_namespace_frame (st : Store) (todayStr : String)
    (rawPapers : List ArxivPaper) (filPapers : List AnalyzedPaper) (k : String) :
    (strStartsWith k PATH_RAW_DIR = false →
      getItem (saveRawData st todayStr rawPapers) k = getItem st k) ∧
    (strStartsWith k PATH_FILTERED_DIR = false →
      getItem (saveFilteredData st todayStr filPapers) k = getItem st k) := by
  constructor
  · intro hraw
    show getItem (cleanupDirectory _ PATH_RAW_DIR _) k = getItem st k
    rw [getItem_cleanupDirectory_of_not_startsWith _ _ _ _ hraw]
    apply getItem_setItem_ne
    have : getRawPath todayStr = PATH_RAW_DIR ++ (todayStr ++ ".json") := by
      simp [getRawPath, String.append_assoc]
    rw [this]
    exact ne_of_not_startsWith k PATH_RAW_DIR (todayStr ++ ".json") hraw
  · intro hfil
    show getItem (cleanupDirectory _ PATH_FILTERED_DIR _) k = getItem st k
    rw [getItem_cleanupDirectory_of_not_startsWith _ _ _ _ hfil]
    apply getItem_setItem_ne
    have : getFilteredPath todayStr = PATH_FILTERED_DIR ++ (todayStr ++ ".json") := by
      simp [getFilteredPath, String.append_assoc]
    rw [this]
    exact ne_of_not_startsWith k PATH_FILTERED_DIR (todayStr ++ ".json") hfil

/-- Store used to exercise `cleanup_namespace_frame` at a concrete input:
a report snapshot, the manifest, one settings key, one stale raw file and
one filtered snapshot. -/
def frameDemoStore : Store :=
  [(getReportPath "2024-01-02", StoredValue.reportSnap "2024-01-02" 5 []),
   (PATH_MANIFEST, StoredValue.manifestVal ["2024-01-02"]),
   ("siliconflow_api_key", StoredValue.settingVal "sk"),
   (getRawPath "2024-01-01", StoredValue.rawSnap "2024-01-01" []),
   (getFilteredPath "2024-01-02", StoredValue.filteredSnap "2024-01-02" [])]

/-- Witness for C10: a raw commit leaves the manifest and a
filtered-namespace key unchanged, and a filtered commit leaves the manifest
and a raw-namespace key unchanged. -/
theorem cleanup_namespace_frame_witness :
    strStartsWith PATH_MANIFEST PATH_RAW_DIR = false ∧
    strStartsWith (getFilteredPath "2024-01-02") PATH_RAW_DIR = false ∧
    strStartsWith PATH_MANIFEST PATH_FILTERED_DIR = false ∧
    strStartsWith (getRawPath "2024-01-01") PATH_FILTERED_DIR = false ∧
    getItem (saveRawData frameDemoStore "2024-01-03" []) PATH_MANIFEST
      = getItem frameDemoStore PATH_MANIFEST ∧
    getItem (saveRawData frameDemoStore "2024-01-03" []) (getFilteredPath "2024-01-02")
      = getItem frameDemoStore (getFilteredPath "2024-01-02") ∧
    getItem (saveFilteredData frameDemoStore "2024-01-03" []) PATH_MANIFEST
      = getItem frameDemoStore PATH_MANIFEST ∧
    getItem (saveFilteredData frameDemoStore "2024-01-03" []) (getRawPath "2024-01-01")
      = getItem frameDemoStore (getRawPath "2024-01-01") :=
  ⟨by decide, by decide, by decide, by decide,
   (cleanup_namespace_frame frameDemoStore "2024-01-03" [] [] PATH_MANIFEST).1 (by decide),
   (cleanup_namespace_frame frameDemoStore "2024-01-03" [] []
     (getFilteredPath "2024-01-02")).1 (by decide),
   (cleanup_namespace_frame frameDemoStore "2024-01-03" [] [] PATH_MANIFEST).2 (by decide),
   (cleanup_namespace_frame frameDemoStore "2024-01-03" [] []
     (getRawPath "2024-01-01")).2 (by decide)⟩

/-! ### The cleanup loop misses a key when two stale entries are adjacent -/

/-- Prior store for the C2 failing input: two stale raw snapshots at
consecutive indices of the store. -/
def c2Store : Store :=
  [(getRawPath "2024-01-01", StoredValue.rawSnap "2024-01-01" []),
   (getRawPath "2024-01-02", StoredValue.rawSnap "2024-01-02" [])]

/-- CLAIM C2 (code bug). `saveRawData` is meant to leave exactly one snapshot
in the raw namespace ("Cleanup old raw files (Keep only today)"), but the
cleanup loop removes entries while iterating `localStorage` by live index:
deleting the entry at index `i` shifts its successor into index `i`, which the
`i++` step then skips. From a store holding stale raw files for 2024-01-01 and
2024-01-02 at consecutive indices, a commit for 2024-01-03 deletes only
2024-01-01; 2024-01-02 survives and the raw namespace ends with two snapshots
where the claim requires one. -/
theorem saveRawData_stale_key_survives :
    (saveRawData c2Store "2024-01-03" []).filter (fun e => strStartsWith e.1 PATH_RAW_DIR)
      = [(getRawPath "2024-01-02", StoredValue.rawSnap "2024-01-02" []),
         (getRawPath "2024-01-03", StoredValue.rawSnap "2024-01-03" [])] ∧
    getItem (saveRawData c2Store "2024-01-03" []) (getRawPath "2024-01-02")
      = some (StoredValue.rawSnap "2024-01-02" []) ∧
    ((saveRawData c2Store "2024-01-03" []).filter
        (fun e => strStartsWith e.1 PATH_RAW_DIR)).length = 2 := by
  decide

/-! ### Report retention: manifest and snapshot bookkeeping -/

theorem getManifest_nil : getManifest [] = [] := rfl

theorem getManifest_setItem_report (st : Store) (d : String) (ts : Nat)
    (ps : List AnalyzedPaper) (hd : d ≠ "manifest") :
    getManifest (setItem st (getReportPath d) (StoredValue.reportSnap d ts ps))
      = getManifest st := by
  unfold getManifest
  rw [getItem_setItem_ne st _ PATH_MANIFEST _ (Ne.symm (getReportPath_ne_manifest d hd))]

theorem getManifest_setItem_manifest (st : Store) (l : List String) :
    getManifest (setItem st PATH_MANIFEST (StoredValue.manifestVal l)) = l := by
  unfold getManifest
  rw [getItem_setItem_self]

theorem getManifest_removeItem_report (st : Store) (d : String) (hd : d ≠ "manifest") :
    getManifest (removeItem st (getReportPath d)) = getManifest st := by
  unfold getManifest
  rw [getItem_removeItem_ne st _ PATH_MANIFEST (Ne.symm (getReportPath_ne_manifest d hd))]

theorem keys_foldl_removeReports_nodup (ds : List String) (st : Store)
    (h : (keys st).Nodup) :
    (keys (ds.foldl (fun s x => removeItem s (getReportPath x)) st)).Nodup := by
  induction ds generalizing st with
  | nil => exact h
  | cons x xs ih =>
    simp only [List.foldl_cons]
    exact ih _ (keys_removeItem_nodup st _ h)

theorem getManifest_foldl_removeReports (ds : List String) (st : Store)
    (h : ∀ x ∈ ds, x ≠ "manifest") :
    getManifest (ds.foldl (fun s x => removeItem s (getReportPath x)) st)
      = getManifest st := by
  induction ds generalizing st with
  | nil => rfl
  | cons x xs ih =>
    simp only [List.foldl_cons]
    rw [ih _ (fun y hy => h y (List.mem_cons_of_mem x hy)),
      getManifest_removeItem_report st x (h x (List.mem_cons_self x xs))]

theorem getItem_foldl_removeReports (ds : List String) (st : Store)
    (hnd : (keys st).Nodup) (d : String) :
    getItem (ds.foldl (fun s x => removeItem s (getReportPath x)) st) (getReportPath d)
      = if d ∈ ds then none else getItem st (getReportPath d) := by
  induction ds generalizing st with
  | nil => simp
  | cons x xs ih =>
    simp only [List.foldl_cons]
    rw [ih _ (keys_removeItem_nodup st _ hnd)]
    by_cases hdx : d = x
    · subst hdx
      by_cases hin : d ∈ xs
      · simp [hin]
      · simp [hin, getItem_removeItem_self st _ hnd]
    · have hne : getReportPath d ≠ getReportPath x := fun hc => hdx (getReportPath_inj d x hc)
      rw [getItem_removeItem_ne st _ _ hne]
      by_cases hin : d ∈ xs
      · simp [hin]
      · simp [hin, hdx]

/-- Invariant tied to CLAIM C1: after committing the (distinct, newest-first)
date history `hist`, the store keys are unique, the manifest holds the newest
seven dates of `hist`, and the report namespace holds a snapshot for a date
exactly when the manifest references it. -/
def reportInv (st : Store) (hist : List String) : Prop :=
  (keys st).Nodup ∧
  getManifest st = hist.take 7 ∧
  ∀ d : String, d ≠ "manifest" →
    ((d ∈ hist.take 7 →
        ∃ ts ps, getItem st (getReportPath d) = some (StoredValue.reportSnap d ts ps)) ∧
     (d ∉ hist.take 7 → getItem st (getReportPath d) = none))

theorem saveReport_step (st : Store) (hist : List String) (dnew : String) (ts : Nat)
    (ps : List AnalyzedPaper) (hinv : reportInv st hist) (hhist : hist.Nodup)
    (hm : "manifest" ∉ hist) (hdnew : dnew ∉ hist) (hdm : dnew ≠ "manifest") :
    reportInv (saveReport st dnew ts ps) (dnew :: hist) := by
  obtain ⟨hkeys, hman, hpts⟩ := hinv
  have hdnew7 : dnew ∉ hist.take 7 := fun hc => hdnew (List.take_subset 7 hist hc)
  have hrpM : ∀ d : String, d ≠ "manifest" → getReportPath d ≠ PATH_MANIFEST :=
    getReportPath_ne_manifest
  simp only [saveReport]
  rw [getManifest_setItem_report st dnew ts ps hdm, hman]
  rw [if_neg hdnew7, if_neg hdnew7]
  have hkeys1 : (keys (setItem st (getReportPath dnew)
      (StoredValue.reportSnap dnew ts ps))).Nodup := keys_setItem_nodup st _ _ hkeys
  have hget1 : ∀ d : String, d ≠ dnew →
      getItem (setItem st (getReportPath dnew) (StoredValue.reportSnap dnew ts ps))
        (getReportPath d) = getItem st (getReportPath d) := by
    intro d hd
    exact getItem_setItem_ne st _ _ _ (fun hc => hd (getReportPath_inj d dnew hc))
  have hget1self : getItem (setItem st (getReportPath dnew)
      (StoredValue.reportSnap dnew ts ps)) (getReportPath dnew)
      = some (StoredValue.reportSnap dnew ts ps) := getItem_setItem_self st _ _
  have htake_cons : (dnew :: hist).take 7 = dnew :: hist.take 6 := by
    show (dnew :: hist).take (6 + 1) = dnew :: hist.take 6
    rw [List.take_succ_cons]
  have h66 : (hist.take 7).take 6 = hist.take 6 := by
    rw [List.take_take]
    norm_num
  have hsplit : hist.take 6 ++ (hist.take 7).drop 6 = hist.take 7 := by
    rw [← h66, List.take_append_drop]
  have t7nodup : (hist.take 7).Nodup := (List.take_sublist 7 hist).nodup hhist
  have hrem_hist : ∀ x ∈ (hist.take 7).drop 6, x ∈ hist :=
    fun x hx => List.take_subset 7 hist (List.drop_subset 6 _ hx)
  have hdisj : ∀ x ∈ (hist.take 7).drop 6, x ∉ hist.take 6 := by
    intro x hx hx6
    have hnd : (hist.take 6 ++ (hist.take 7).drop 6).Nodup := by
      rw [hsplit]
      exact t7nodup
    exact (List.disjoint_of_nodup_append hnd) hx6 hx
  set st1 := setItem st (getReportPath dnew) (StoredValue.reportSnap dnew ts ps) with hst1
  by_cases hlen : 7 ≤ hist.length
  · have hcond : (dnew :: hist.take 7).length > 7 := by
      simp only [List.length_cons, List.length_take]
      omega
    rw [if_pos hcond]
    have hdrop : (dnew :: hist.take 7).drop 7 = (hist.take 7).drop 6 := by
      show (dnew :: hist.take 7).drop (6 + 1) = (hist.take 7).drop 6
      rw [List.drop_succ_cons]
    have htk : (dnew :: hist.take 7).take 7 = dnew :: hist.take 6 := by
      show (dnew :: hist.take 7).take (6 + 1) = dnew :: hist.take 6
      rw [List.take_succ_cons, h66]
    rw [hdrop, htk]
    have hkeys2 : (keys (setItem st1 PATH_MANIFEST
        (StoredValue.manifestVal (dnew :: hist.take 7)))).Nodup :=
      keys_setItem_nodup st1 _ _ hkeys1
    refine ⟨?_, ?_, ?_⟩
    · exact keys_setItem_nodup _ _ _ (keys_foldl_removeReports_nodup _ _ hkeys2)
    · rw [getManifest_setItem_manifest, htake_cons]
    · intro d hd
      have hvchain : getItem (setItem (((hist.take 7).drop 6).foldl
            (fun s x => removeItem s (getReportPath x))
            (setItem st1 PATH_MANIFEST (StoredValue.manifestVal (dnew :: hist.take 7))))
          PATH_MANIFEST (StoredValue.manifestVal (dnew :: hist.take 6))) (getReportPath d)
          = if d ∈ (hist.take 7).drop 6 then none else getItem st1 (getReportPath d) := by
        rw [getItem_setItem_ne _ _ _ _ (hrpM d hd),
          getItem_foldl_removeReports _ _ hkeys2 d,
          getItem_setItem_ne st1 _ _ _ (hrpM d hd)]
      rw [htake_cons]
      by_cases hddnew : d = dnew
      · subst hddnew
        have hdnrem : d ∉ (hist.take 7).drop 6 := fun hx => hdnew (hrem_hist _ hx)
        constructor
        · intro _
          refine ⟨ts, ps, ?_⟩
          rw [hvchain, if_neg hdnrem, hst1, getItem_setItem_self]
        · intro hno
          exact absurd (List.mem_cons_self _ _) hno
      · have hstep1 : getItem st1 (getReportPath d) = getItem st (getReportPath d) :=
          hget1 d hddnew
        by_cases hdrem : d ∈ (hist.take 7).drop 6
        · constructor
          · intro hmem
            rcases List.mem_cons.mp hmem with hc | hc
            · exact absurd hc hddnew
            · exact absurd hc (hdisj d hdrem)
          · intro _
            rw [hvchain, if_pos hdrem]
        · by_cases hd7 : d ∈ hist.take 7
          · have hd6 : d ∈ hist.take 6 := by
              rcases List.mem_append.mp (hsplit ▸ hd7) with hc | hc
              · exact hc
              · exact absurd hc hdrem
            constructor
            · intro _
              obtain ⟨ts', ps', hv⟩ := (hpts d hd).1 hd7
              refine ⟨ts', ps', ?_⟩
              rw [hvchain, if_neg hdrem, hstep1, hv]
            · intro hno
              exact absurd (List.mem_cons_of_mem dnew hd6) hno
          · have hd6 : d ∉ hist.take 6 := fun hx => hd7 (by
              rw [← hsplit]
              exact List.mem_append_left _ hx)
            constructor
            · intro hmem
              rcases List.mem_cons.mp hmem with hc | hc
              · exact absurd hc hddnew
              · exact absurd hc hd6
            · intro _
              rw [hvchain, if_neg hdrem, hstep1]
              exact (hpts d hd).2 hd7
  · have hlen6 : hist.length ≤ 6 := by omega
    have hcond : ¬ ((dnew :: hist.take 7).length > 7) := by
      simp only [List.length_cons, List.length_take]
      omega
    rw [if_neg hcond]
    have ht7 : hist.take 7 = hist := List.take_of_length_le (by omega)
    have ht6 : hist.take 6 = hist := List.take_of_length_le hlen6
    refine ⟨keys_setItem_nodup _ _ _ hkeys1, ?_, ?_⟩
    · rw [getManifest_setItem_manifest, htake_cons, ht6, ht7]
    · intro d hd
      have hval : getItem (setItem st1 PATH_MANIFEST
          (StoredValue.manifestVal (dnew :: hist.take 7))) (getReportPath d)
          = getItem st1 (getReportPath d) :=
        getItem_setItem_ne st1 _ _ _ (hrpM d hd)
      rw [htake_cons, ht6]
      by_cases hddnew : d = dnew
      · subst hddnew
        constructor
        · intro _
          refine ⟨ts, ps, ?_⟩
          rw [hval, hst1, getItem_setItem_self]
        · intro hno
          exact absurd (List.mem_cons_self _ _) hno
      · have hstep1 : getItem st1 (getReportPath d) = getItem st (getReportPath d) :=
          hget1 d hddnew
        constructor
        · intro hmem
          rcases List.mem_cons.mp hmem with hc | hc
          · exact absurd hc hddnew
          · obtain ⟨ts', ps', hv⟩ := (hpts d hd).1 (by rw [ht7]; exact hc)
            exact ⟨ts', ps', by rw [hval, hstep1, hv]⟩
        · intro hno
          have hd7 : d ∉ hist.take 7 := by
            rw [ht7]
            intro hc
            exact hno (List.mem_cons_of_mem dnew hc)
          rw [hval, hstep1]
          exact (hpts d hd).2 hd7

theorem runReports_inv (commits : List (String × Nat × List AnalyzedPaper)) :
    ∀ (st : Store) (hist : List String), reportInv st hist →
      (hist ++ commits.map (fun c => c.1)).Nodup →
      "manifest" ∉ hist → "manifest" ∉ commits.map (fun c => c.1) →
      reportInv (runReports commits st) ((commits.map (fun c => c.1)).reverse ++ hist) := by
  induction commits with
  | nil =>
    intro st hist hinv _ _ _
    simpa [runReports] using hinv
  | cons c cs ih =>
    intro st hist hinv hnd hm1 hm2
    have hmapc : (c :: cs).map (fun c => c.1) = c.1 :: cs.map (fun c => c.1) := rfl
    rw [hmapc] at hnd hm2
    have hcm : c.1 ≠ "manifest" := by
      intro hc
      exact hm2 (by rw [← hc]; exact List.mem_cons_self _ _)
    have hcsm : "manifest" ∉ cs.map (fun c => c.1) :=
      fun hx => hm2 (List.mem_cons_of_mem _ hx)
    have hhist2 : hist.Nodup := List.Nodup.of_append_left hnd
    have hcnotin : c.1 ∉ hist := by
      intro hc
      exact (List.disjoint_of_nodup_append hnd) hc (List.mem_cons_self _ _)
    have hstep := saveReport_step st hist c.1 c.2.1 c.2.2 hinv hhist2 hm1 hcnotin hcm
    have hnd' : ((c.1 :: hist) ++ cs.map (fun c => c.1)).Nodup := by
      have hperm := @List.perm_middle String c.1 hist (cs.map (fun c => c.1))
      have := (hperm.nodup_iff).mp hnd
      simpa using this
    have hm1' : "manifest" ∉ c.1 :: hist := by
      intro hx
      rcases List.mem_cons.mp hx with hc | hc
      · exact hcm hc.symm
      · exact hm1 hc
    have hres := ih (saveReport st c.1 c.2.1 c.2.2) (c.1 :: hist) hstep hnd' hm1' hcsm
    have hrun : runReports (c :: cs) st = runReports cs (saveReport st c.1 c.2.1 c.2.2) := rfl
    have hl : ((c :: cs).map (fun c => c.1)).reverse ++ hist
        = (cs.map (fun c => c.1)).reverse ++ (c.1 :: hist) := by
      rw [hmapc]
      simp [List.reverse_cons, List.append_assoc]
    rw [hrun, hl]
    exact hres

/-- CLAIM C1. Retention bound for `saveReport`: starting from an empty store,
after N consecutive `saveReport` commits with N distinct date keys (none of
them the reserved word "manifest"), the manifest lists the commit dates newest
first truncated to 7, its length is `min N 7`, and the report namespace holds
a snapshot for a date exactly when the manifest references it — the dates
beyond the 7th are deleted by the same commit that trims the manifest. -/
theorem saveReport_retention_bound (commits : List (String × Nat × List AnalyzedPaper))
    (hnd : (commits.map (fun c => c.1)).Nodup)
    (hm : "manifest" ∉ commits.map (fun c => c.1)) :
    getManifest (runReports commits []) = ((commits.map (fun c => c.1)).reverse).take 7 ∧
    (getManifest (runReports commits [])).length = min commits.length 7 ∧
    ∀ d : String, d ≠ "manifest" →
      ((getItem (runReports commits []) (getReportPath d)).isSome
        ↔ d ∈ getManifest (runReports commits [])) := by
  have hinv0 : reportInv [] [] := by
    refine ⟨by simp [keys], rfl, ?_⟩
    intro d hd
    exact ⟨fun hx => absurd hx (by simp), fun _ => rfl⟩
  have hres := runReports_inv commits [] [] hinv0 (by simpa using hnd) (by simp) hm
  rw [List.append_nil] at hres
  obtain ⟨hk, hman, hpts⟩ := hres
  refine ⟨hman, ?_, ?_⟩
  · rw [hman, List.length_take, List.length_reverse, List.length_map]
    omega
  · intro d hd
    constructor
    · intro hsome
      by_contra hmem
      have hnone := (hpts d hd).2 (by rw [hman] at hmem; exact hmem)
      rw [hnone] at hsome
      simp at hsome
    · intro hmem
      obtain ⟨ts, ps, hv⟩ := (hpts d hd).1 (by rw [← hman]; exact hmem)
      rw [hv]
      rfl

/-- Nine consecutive daily report commits with distinct dates (the spec's
history-trim scenario). -/
def reportDemoCommits : List (String × Nat × List AnalyzedPaper) :=
  [("2024-01-01", 1, []), ("2024-01-02", 2, []), ("2024-01-03", 3, []),
   ("2024-01-04", 4, []), ("2024-01-05", 5, []), ("2024-01-06", 6, []),
   ("2024-01-07", 7, []), ("2024-01-08", 8, []), ("2024-01-09", 9, [])]

/-- Witness for C1 at the nine-commit scenario. -/
theorem saveReport_retention_bound_witness :
    (reportDemoCommits.map (fun c => c.1)).Nodup ∧
    "manifest" ∉ reportDemoCommits.map (fun c => c.1) ∧
    (getManifest (runReports reportDemoCommits [])
        = ((reportDemoCommits.map (fun c => c.1)).reverse).take 7 ∧
      (getManifest (runReports reportDemoCommits [])).length = min reportDemoCommits.length 7 ∧
      ∀ d : String, d ≠ "manifest" →
        ((getItem (runReports reportDemoCommits []) (getReportPath d)).isSome
          ↔ d ∈ getManifest (runReports reportDemoCommits []))) :=
  ⟨by decide, by decide,
   saveReport_retention_bound reportDemoCommits (by decide) (by decide)⟩

/-- Concrete sanity check of the nine-commit scenario: the manifest holds the
seven most recent dates newest first, and the two oldest snapshots are gone. -/
theorem runReports_demo_eval :
    getManifest (runReports reportDemoCommits [])
      = ["2024-01-09", "2024-01-08", "2024-01-07", "2024-01-06", "2024-01-05",
         "2024-01-04", "2024-01-03"] ∧
    getItem (runReports reportDemoCommits []) (getReportPath "2024-01-01") = none ∧
    getItem (runReports reportDemoCommits []) (getReportPath "2024-01-02") = none ∧
    getItem (runReports reportDemoCommits []) (getReportPath "2024-01-03")
      = some (StoredValue.reportSnap "2024-01-03" 3 []) := by
  decide

/-! ## The fetcher (arxivService.ts): fallback windowing and dedup -/

def msPerDay : Int := 1000 * 3600 * 24

/-- `new Date(ms).getDay()` in UTC: 0 = Sunday, ..., 6 = Saturday.
Epoch day zero (1970-01-01) was a Thursday, hence the offset 4. -/
def dayOfWeekOfMs (t : Int) : Int := (t.fdiv msPerDay + 4) % 7

/-- The adaptive window of `fetchPapersFallback` (lines 200-215): 4.0 days
when the anchor falls on a Monday (day 1), else the strict 1.2-day window. -/
def timeWindowFor (anchorMs : Int) : Rat :=
  if dayOfWeekOfMs anchorMs = 1 then 4 else 6 / 5

/-- `diffDays` of the fallback loop: elapsed days of `p` relative to the
anchor, `(newest.getTime() - paperDate.getTime()) / (1000*3600*24)`. -/
def diffDays (anchorMs : Int) (p : ArxivPaper) : Rat :=
  ((anchorMs - p.published : Int) : Rat) / (msPerDay : Rat)

/-- The inner record walk of a fallback page (lines 221-236): accept records
in returned order while their elapsed days stay within the window; on the
first record exceeding it, stop and report `stopFetching = true`. -/
def walkPage (anchorMs : Int) (window : Rat) : List ArxivPaper → List ArxivPaper × Bool
  | [] => ([], false)
  | p :: rest =>
    if window < diffDays anchorMs p then ([], true)
    else
      let r := walkPage anchorMs window rest
      (p :: r.1, r.2)

/-- Running state of the fallback pagination loop: the anchor timestamp (set
from the first record of the first successfully fetched page), the current
window, and the accumulated records. -/
structure FallbackState where
  anchor : Option Int
  window : Rat
  acc : List ArxivPaper
deriving DecidableEq

/-- Anchor/window used for a page: the established anchor if any, otherwise
the page head's timestamp with its adaptive window (lines 196-215). -/
def anchorFor (st : FallbackState) (page : List ArxivPaper) : Int × Rat :=
  match st.anchor with
  | some a => (a, st.window)
  | none =>
    match page with
    | p :: _ => (p.published, timeWindowFor p.published)
    | [] => (0, st.window)

/-- The fallback pagination loop (lines 186-251). Each list entry is one
page request's outcome: `none` for a transport error (caught; the loop moves
to the next offset), `some []` for an empty page (loop breaks), and
`some papers` for a parsed page. -/
def processPages : List (Option (List ArxivPaper)) → FallbackState → List ArxivPaper
  | [], st => st.acc
  | none :: rest, st => processPages rest st
  | some [] :: _, st => st.acc
  | some (p :: ps) :: rest, st =>
    let aw := anchorFor st (p :: ps)
    let walked := walkPage aw.1 aw.2 (p :: ps)
    let st' : FallbackState := ⟨some aw.1, aw.2, st.acc ++ walked.1⟩
    if walked.2 then st'.acc else processPages rest st'

def initFallbackState : FallbackState := ⟨none, 6 / 5, []⟩

/-- One step of `new Map(allPapers.map(item => [item.id, item]))`: a repeated
identifier keeps its first position but takes the latest record. -/
def upsertById (acc : List ArxivPaper) (p : ArxivPaper) : List ArxivPaper :=
  if acc.any (fun q => q.id = p.id) then
    acc.map (fun q => if q.id = p.id then p else q)
  else acc ++ [p]

/-- The dedup at lines 253-254. -/
def dedupById (l : List ArxivPaper) : List ArxivPaper := l.foldl upsertById []

/-- `fetchPapersFallback`: at most 10 pages (1000 records / 100 per page),
then identifier dedup of the accumulated result. -/
def fetchPapersFallback (pages : List (Option (List ArxivPaper))) : List ArxivPaper :=
  dedupById (processPages (pages.take 10) initFallbackState)

/-- One step of JS `Set.prototype.add` over strings (insertion order kept). -/
def addIdToSet (acc : List String) (i : String) : List String :=
  if i ∈ acc then acc else acc ++ [i]

/-- `extractIdsFromHtml` modulo the regex: the input is the ordered list of
`href="/abs/<id>"` matches and the result is the per-page id set. -/
def extractIdsFromHtml (hits : List String) : List String :=
  hits.foldl addIdToSet []

/-- The merged unique id set of `fetchLatestPapers` (lines 132-134):
`Array.from(new Set(idLists.flat()))`. -/
def mergedUniqueIds (matches1 matches2 : List String) : List String :=
  ([extractIdsFromHtml matches1, extractIdsFromHtml matches2].flatten).foldl addIdToSet []

/-- `l.slice(i, i + n)` chunking of the batch loops, via structural fuel
(`fuel = l.length` always suffices since every step drops at least one
element for `0 < n`). -/
def chunksAux (n : Nat) : Nat → List α → List (List α)
  | _, [] => []
  | 0, _ :: _ => []
  | fuel + 1, x :: xs => (x :: xs).take n :: chunksAux n fuel ((x :: xs).drop n)

def chunksOf (n : Nat) (l : List α) : List (List α) := chunksAux n l.length l

/-- `fetchLatestPapers`: scrape both listing pages (their regex matches are
the two input lists), merge and dedup the ids; fall back when empty;
otherwise query metadata in chunks of 40, a failed chunk contributing zero
records (`queryById` returns `none` on error). -/
def fetchLatestPapers (matches1 matches2 : List String)
    (queryById : List String → Option (List ArxivPaper))
    (pages : List (Option (List ArxivPaper))) : List ArxivPaper :=
  let uniqueIds := mergedUniqueIds matches1 matches2
  if uniqueIds.isEmpty then fetchPapersFallback pages
  else (chunksOf 40 uniqueIds).foldl (fun acc c => acc ++ ((queryById c).getD [])) []

/-- CLAIM C3. Window adaptivity of the fallback path: the window derived from
an anchor timestamp is 4.0 days exactly when the anchor's day-of-week is 1 —
Monday, the second day of the Sunday-started 7-day week, i.e. the day after
the feed's two-day weekend gap — and the strict 1.2-day window for every
other day of the week; and the anchor of the fallback loop is taken from the
first record of the first non-empty page. -/
theorem fallback_window_adaptivity :
    (∀ t : Int, (timeWindowFor t = 4 ↔ dayOfWeekOfMs t = 1) ∧
      (timeWindowFor t = 6 / 5 ↔ dayOfWeekOfMs t ≠ 1)) ∧
    (∀ (p : ArxivPaper) (ps : List ArxivPaper),
      anchorFor initFallbackState (p :: ps) = (p.published, timeWindowFor p.published) ∧
      processPages [some (p :: ps)] initFallbackState
        = (walkPage p.published (timeWindowFor p.published) (p :: ps)).1) := by
  constructor
  · intro t
    constructor
    · unfold timeWindowFor
      by_cases h : dayOfWeekOfMs t = 1
      · simp [h]
      · simp [h]
        intro hc
        norm_num at hc
    · unfold timeWindowFor
      by_cases h : dayOfWeekOfMs t = 1
      · simp [h]
        intro hc
        norm_num at hc
      · simp [h]
  · intro p ps
    constructor
    · rfl
    · show processPages [some (p :: ps)] initFallbackState = _
      simp only [processPages, anchorFor, initFallbackState]
      by_cases hw : (walkPage p.published (timeWindowFor p.published) (p :: ps)).2
      · simp [hw]
      · simp [hw, processPages]

/-! ### The fallback walk: takeWhile characterisation and stop propagation -/

theorem walkPage_fst_eq_takeWhile (a : Int) (w : Rat) (page : List ArxivPaper) :
    (walkPage a w page).1 = page.takeWhile (fun p => decide (diffDays a p ≤ w)) := by
  induction page with
  | nil => rfl
  | cons p rest ih =>
    by_cases h : w < diffDays a p
    · have hd : ¬ (diffDays a p ≤ w) := not_le.mpr h
      simp [walkPage, h, List.takeWhile_cons, hd]
    · have hd : diffDays a p ≤ w := not_lt.mp h
      simp [walkPage, h, List.takeWhile_cons, hd, ih]

theorem walkPage_snd_iff (a : Int) (w : Rat) (page : List ArxivPaper) :
    ((walkPage a w page).2 = true ↔ ∃ p ∈ page, w < diffDays a p) := by
  induction page with
  | nil => simp [walkPage]
  | cons p rest ih =>
    by_cases h : w < diffDays a p
    · simp [walkPage, h]
    · simp [walkPage, h, ih]

theorem diffDays_mono (a : Int) (p q : ArxivPaper) (h : q.published ≤ p.published) :
    diffDays a p ≤ diffDays a q := by
  unfold diffDays
  have hpos : (0 : Rat) < ((msPerDay : Int) : Rat) := by norm_num [msPerDay]
  rw [div_le_div_iff_of_pos_right hpos]
  have : (a - p.published : Int) ≤ (a - q.published : Int) := by omega
  exact_mod_cast this

theorem walkPage_mem_iff (a : Int) (w : Rat) (page : List ArxivPaper)
    (hsorted : page.Pairwise (fun x y => y.published ≤ x.published)) (q : ArxivPaper) :
    (q ∈ (walkPage a w page).1 ↔ q ∈ page ∧ diffDays a q ≤ w) := by
  induction page with
  | nil => simp [walkPage]
  | cons p rest ih =>
    rcases List.pairwise_cons.mp hsorted with ⟨hhead, htail⟩
    by_cases h : w < diffDays a p
    · simp only [walkPage, if_pos h]
      constructor
      · intro hq
        simp at hq
      · rintro ⟨hq, hle⟩
        rcases List.mem_cons.mp hq with hc | hc
        · subst hc
          exact absurd hle (not_le.mpr h)
        · have := diffDays_mono a p q (hhead q hc)
          exact absurd hle (not_le.mpr (lt_of_lt_of_le h this))
    · simp only [walkPage, if_neg h]
      constructor
      · intro hq
        rcases List.mem_cons.mp hq with hc | hc
        · subst hc
          exact ⟨List.mem_cons_self _ _, not_lt.mp h⟩
        · rcases (ih htail).mp hc with ⟨hm, hle⟩
          exact ⟨List.mem_cons_of_mem _ hm, hle⟩
      · rintro ⟨hq, hle⟩
        rcases List.mem_cons.mp hq with hc | hc
        · subst hc
          exact List.mem_cons_self _ _
        · exact List.mem_cons_of_mem _ ((ih htail).mpr ⟨hc, hle⟩)

theorem processPages_stop (st : FallbackState) (p : ArxivPaper) (ps : List ArxivPaper)
    (rest : List (Option (List ArxivPaper)))
    (hstop : (walkPage (anchorFor st (p :: ps)).1 (anchorFor st (p :: ps)).2 (p :: ps)).2
      = true) :
    processPages (some (p :: ps) :: rest) st
      = st.acc ++ (walkPage (anchorFor st (p :: ps)).1 (anchorFor st (p :: ps)).2 (p :: ps)).1 := by
  simp [processPages, hstop]

/-- CLAIM C8. In the fallback path, page records are walked in returned order:
the accepted records of a page are the longest prefix whose elapsed days stay
within the window (`takeWhile`); under the feed-order assumption (publication
times non-increasing), a record is accepted exactly when its elapsed days are
at most the window; the walk reports a stop exactly when some record exceeds
the window; and when it does, the pagination loop returns what was
accumulated so far without consulting any later page. -/
theorem fallback_walk_window (a : Int) (w : Rat) (page : List ArxivPaper)
    (st : FallbackState) (rest : List (Option (List ArxivPaper)))
    (hsorted : page.Pairwise (fun x y => y.published ≤ x.published)) :
    (walkPage a w page).1 = page.takeWhile (fun p => decide (diffDays a p ≤ w)) ∧
    ((walkPage a w page).2 = true ↔ ∃ p ∈ page, w < diffDays a p) ∧
    (∀ q, q ∈ (walkPage a w page).1 ↔ q ∈ page ∧ diffDays a q ≤ w) ∧
    (∀ (p : ArxivPaper) (ps : List ArxivPaper),
      (walkPage (anchorFor st (p :: ps)).1 (anchorFor st (p :: ps)).2 (p :: ps)).2 = true →
      processPages (some (p :: ps) :: rest) st
        = st.acc ++ (walkPage (anchorFor st (p :: ps)).1 (anchorFor st (p :: ps)).2 (p :: ps)).1) :=
  ⟨walkPage_fst_eq_takeWhile a w page, walkPage_snd_iff a w page,
   walkPage_mem_iff a w page hsorted,
   fun p ps hstop => processPages_stop st p ps rest hstop⟩

/-- Concrete papers for the C8 witness: anchor published on Monday
1970-01-05, one record two days older (inside the 4-day window), one record
five days older (beyond it). -/
def c8Anchor : ArxivPaper :=
  ⟨"a1", "t1", "s1", [], 4 * msPerDay, "a1", ["cs.AI"], ""⟩

def c8Mid : ArxivPaper :=
  ⟨"a2", "t2", "s2", [], 2 * msPerDay, "a2", ["cs.AI"], ""⟩

def c8Old : ArxivPaper :=
  ⟨"a3", "t3", "s3", [], -(1 * msPerDay), "a3", ["cs.CV"], ""⟩

/-- Witness for C8 at a concrete sorted page. -/
theorem fallback_walk_window_witness :
    ([c8Anchor, c8Mid, c8Old].Pairwise (fun x y => y.published ≤ x.published)) ∧
    ((walkPage (4 * msPerDay) 4 [c8Anchor, c8Mid, c8Old]).1
        = [c8Anchor, c8Mid, c8Old].takeWhile
            (fun p => decide (diffDays (4 * msPerDay) p ≤ 4)) ∧
      ((walkPage (4 * msPerDay) 4 [c8Anchor, c8Mid, c8Old]).2 = true ↔
        ∃ p ∈ [c8Anchor, c8Mid, c8Old], (4 : Rat) < diffDays (4 * msPerDay) p) ∧
      (∀ q, q ∈ (walkPage (4 * msPerDay) 4 [c8Anchor, c8Mid, c8Old]).1 ↔
        q ∈ [c8Anchor, c8Mid, c8Old] ∧ diffDays (4 * msPerDay) q ≤ 4) ∧
      (∀ (p : ArxivPaper) (ps : List ArxivPaper),
        (walkPage (anchorFor initFallbackState (p :: ps)).1
            (anchorFor initFallbackState (p :: ps)).2 (p :: ps)).2 = true →
        processPages (some (p :: ps) :: [some [c8Old]]) initFallbackState
          = initFallbackState.acc ++
              (walkPage (anchorFor initFallbackState (p :: ps)).1
                (anchorFor initFallbackState (p :: ps)).2 (p :: ps)).1)) :=
  ⟨by decide,
   fallback_walk_window (4 * msPerDay) 4 [c8Anchor, c8Mid, c8Old]
     initFallbackState [some [c8Old]] (by decide)⟩

/-! ### Identifier dedup (C7) -/

theorem upsertById_map_id (acc : List ArxivPaper) (p : ArxivPaper) :
    (upsertById acc p).map (fun q => q.id)
      = if acc.any (fun q => q.id = p.id) then acc.map (fun q => q.id)
        else acc.map (fun q => q.id) ++ [p.id] := by
  unfold upsertById
  by_cases h : acc.any (fun q => decide (q.id = p.id))
  · rw [if_pos h, if_pos h, List.map_map]
    apply List.map_congr_left
    intro q _
    by_cases hq : q.id = p.id
    · simp [hq]
    · simp [hq]
  · rw [if_neg h, if_neg h]
    simp

theorem foldl_upsertById_ids_nodup (l : List ArxivPaper) :
    ∀ acc : List ArxivPaper, ((acc.map (fun p => p.id)).Nodup) →
    (((l.foldl upsertById acc).map (fun p => p.id)).Nodup) := by
  induction l with
  | nil => intro acc h; exact h
  | cons p xs ih =>
    intro acc h
    simp only [List.foldl_cons]
    apply ih
    rw [upsertById_map_id]
    by_cases hany : acc.any (fun q => decide (q.id = p.id))
    · rw [if_pos hany]
      exact h
    · rw [if_neg hany]
      have hfalse := List.any_eq_false.mp (Bool.eq_false_iff.mpr hany)
      have hnotin : p.id ∉ acc.map (fun q => q.id) := by
        intro hc
        rcases List.mem_map.mp hc with ⟨q, hq, hq2⟩
        exact hfalse q hq (by simp [hq2])
      simp [List.nodup_append, h, hnotin]

/-- The fallback output carries each identifier at most once. -/
theorem dedupById_ids_nodup (l : List ArxivPaper) :
    ((dedupById l).map (fun p => p.id)).Nodup :=
  foldl_upsertById_ids_nodup l [] (by simp)

theorem foldl_addIdToSet_nodup (l : List String) :
    ∀ acc : List String, acc.Nodup → (l.foldl addIdToSet acc).Nodup := by
  induction l with
  | nil => intro acc h; exact h
  | cons i xs ih =>
    intro acc h
    simp only [List.foldl_cons]
    apply ih
    unfold addIdToSet
    by_cases hin : i ∈ acc
    · rw [if_pos hin]; exact h
    · rw [if_neg hin]
      simp [List.nodup_append, h, hin]

/-- Record returned twice by the metadata endpoint in the C7 counterexample. -/
def dupPaper : ArxivPaper := ⟨"2401.00001", "t", "s", [], 0, "l", ["cs.AI"], ""⟩

/-- CLAIM C7 (counterexample). A run of `fetchLatestPapers` in which the
listing scrape yields one identifier and the query-by-identifier endpoint
answers that chunk with the same record twice: the primary path pushes the
parsed records through without any dedup, so the returned sequence carries
the identifier twice — the claim's "each paper identifier at most once" fails
on this run. -/
theorem fetchLatest_duplicate_cex :
    (fetchLatestPapers ["2401.00001"] [] (fun _ => some [dupPaper, dupPaper]) []).map
        (fun p => p.id) = ["2401.00001", "2401.00001"] ∧
    ¬ (((fetchLatestPapers ["2401.00001"] [] (fun _ => some [dupPaper, dupPaper]) []).map
        (fun p => p.id)).Nodup) := by
  decide

/-- CLAIM C7 (amended). The dedup steps the code actually performs: the
fallback path's returned sequence contains each identifier at most once
(lines 253-257), and the primary path's merged scraped identifier list is
duplicate-free (lines 132-134) — but the primary path returns the metadata
records as received, so only the identifier *requests* are deduplicated
there, not the returned records. -/
theorem fetch_dedup_amended :
    (∀ pages : List (Option (List ArxivPaper)),
      ((fetchPapersFallback pages).map (fun p => p.id)).Nodup) ∧
    (∀ m1 m2 : List String, (mergedUniqueIds m1 m2).Nodup) := by
  constructor
  · intro pages
    exact dedupById_ids_nodup _
  · intro m1 m2
    exact foldl_addIdToSet_nodup _ [] (by simp)

/-! ## The LLM stages (arxivService.ts, SiliconFlow service) -/

/-- One score object of the scorer's JSON response
(`{id, relevanceScore, hasCode, isAccepted, tags, reasoning}`; a missing
`tags` field is `none`, mapped to `[]` by `res.tags || []`). -/
structure ScoreObj where
  id : String
  relevanceScore : Rat
  hasCode : Bool
  isAccepted : Bool
  tags : Option (List String)
  reasoning : String
deriving DecidableEq

/-- Parse outcome of one scorer response after `cleanJsonOutput`:
`JSON.parse` throws, or `parsed.papers || parsed` is not an array, or a list
of score objects. -/
inductive ScorerResp where
  | parseFail
  | notArray
  | scores (results : List ScoreObj)
deriving DecidableEq

/-- `callSiliconFlow` (lines 282-310): the guard `if (!apiKey) throw ...`
runs before any network request; afterwards the call's outcome is the
environment's response (`Except.error` for HTTP/transport failures). -/
def callSiliconFlow (apiKey : String) (resp : Except String String) : Except String String :=
  if apiKey = "" then
    Except.error "SiliconFlow API Key is missing. Please enter it in the settings."
  else resp

/-- `{...original, relevanceScore, hasCode, isAccepted, tags, reasoning}`
built by `processBatch`; the three analysis fields are absent. -/
def mkScored (original : ArxivPaper) (res : ScoreObj) : AnalyzedPaper :=
  { toArxivPaper := original
    relevanceScore := res.relevanceScore
    tags := res.tags.getD []
    hasCode := res.hasCode
    isAccepted := res.isAccepted
    reasoning := res.reasoning
    innovations := none
    methodology := none
    value := none }

/-- The reconciliation of `processBatch` (lines 383-396): for each score
object locate the original record by identifier; an unknown identifier maps
to `null` and is filtered out. -/
def reconcileBatch (batch : List ArxivPaper) (results : List ScoreObj) :
    List AnalyzedPaper :=
  results.filterMap (fun res =>
    match batch.find? (fun p => decide (p.id = res.id)) with
    | none => none
    | some original => some (mkScored original res))

/-- `processBatch` (lines 360-402): call the scorer, parse, reconcile; the
surrounding try/catch turns every failure — the missing-key throw included —
into an empty batch result. -/
def processBatch (apiKey : String) (resp : List ArxivPaper → Except String String)
    (parse : String → ScorerResp) (batch : List ArxivPaper) : List AnalyzedPaper :=
  match callSiliconFlow apiKey (resp batch) with
  | Except.error _ => []
  | Except.ok content =>
    match parse content with
    | ScorerResp.parseFail => []
    | ScorerResp.notArray => []
    | ScorerResp.scores rs => reconcileBatch batch rs

/-- `filterPapersWithLLM` (lines 316-413): batches of 50, processed in
order, each batch's results appended. -/
def filterPapersWithLLM (papers : List ArxivPaper) (apiKey : String)
    (resp : List ArxivPaper → Except String String) (parse : String → ScorerResp) :
    List AnalyzedPaper :=
  (chunksOf 50 papers).foldl (fun acc b => acc ++ processBatch apiKey resp parse b) []

/-- The Relevance Filter as the spec words it (refinement comparison for C4):
"fails fast only if credentials are absent; otherwise errors are contained
per batch". -/
def filterStageSpec (papers : List ArxivPaper) (apiKey : String)
    (resp : List ArxivPaper → Except String String) (parse : String → ScorerResp) :
    Except String (List AnalyzedPaper) :=
  if apiKey = "" then
    Except.error "SiliconFlow API Key is missing. Please enter it in the settings."
  else Except.ok (filterPapersWithLLM papers apiKey resp parse)

/-! ### C4: missing credentials are contained per batch, not failed fast -/

theorem foldl_append_nil {α β : Type} (f : β → List α) (l : List β)
    (h : ∀ b ∈ l, f b = []) : ∀ init : List α,
    l.foldl (fun acc b => acc ++ f b) init = init := by
  induction l with
  | nil => intro init; rfl
  | cons b bs ih =>
    intro init
    simp only [List.foldl_cons, h b (List.mem_cons_self b bs), List.append_nil]
    exact ih (fun x hx => h x (List.mem_cons_of_mem b hx)) init

/-- Paper and environments used for the C4 concrete run. -/
def c4Paper : ArxivPaper :=
  ⟨"2402.11111", "Quantized VLM", "abstract", ["A. Author"], 0, "2402.11111",
   ["cs.CV"], "Accepted to CVPR"⟩

def c4Score : ScoreObj := ⟨"2402.11111", 9, true, true, some ["VLM"], "fits"⟩

def c4Parse : String → ScorerResp := fun _ => ScorerResp.scores [c4Score]

def c4RespOk : List ArxivPaper → Except String String := fun _ => Except.ok "scores"

def c4RespErr : List ArxivPaper → Except String String :=
  fun _ => Except.error "network down"

/-- CLAIM C4 (counterexample). With credentials absent, `filterPapersWithLLM`
does not fail the stage: the missing-key throw of `callSiliconFlow` is caught
by the per-batch try/catch like any other error, so the run completes and
returns the empty list, while the spec-worded fail-fast stage
(`filterStageSpec`) errors out. The same environment with a key present
produces output, so the empty result is the swallowed failure, not an empty
input. -/
theorem filter_missing_key_no_failfast_cex :
    filterPapersWithLLM [c4Paper] "" c4RespOk c4Parse = [] ∧
    filterStageSpec [c4Paper] "" c4RespOk c4Parse
      = Except.error "SiliconFlow API Key is missing. Please enter it in the settings." ∧
    filterPapersWithLLM [c4Paper] "sk-test" c4RespOk c4Parse
      = [mkScored c4Paper c4Score] :=
  ⟨by decide, rfl, by decide⟩

/-- CLAIM C4 (amended). If the API key is absent, every batch's scoring call
fails immediately inside `callSiliconFlow` (before any network request), but
`filterPapersWithLLM` contains that failure per batch exactly like any other
per-batch error: the stage completes normally and returns the empty
sequence; any batch whose transport errors likewise contributes zero records
without failing the stage. The fail-fast surfacing of a missing key lives in
the pipeline driver, not in the filter. -/
theorem filter_missing_key_contained (papers : List ArxivPaper)
    (resp : List ArxivPaper → Except String String) (parse : String → ScorerResp) :
    filterPapersWithLLM papers "" resp parse = [] ∧
    (∀ batch, processBatch "" resp parse batch = []) ∧
    (∀ r : Except String String, callSiliconFlow "" r
      = Except.error "SiliconFlow API Key is missing. Please enter it in the settings.") ∧
    (∀ (apiKey : String) (batch : List ArxivPaper) (e : String),
      resp batch = Except.error e → processBatch apiKey resp parse batch = []) := by
  have hbatch : ∀ batch, processBatch "" resp parse batch = [] := by
    intro batch
    simp [processBatch, callSiliconFlow]
  refine ⟨?_, hbatch, ?_, ?_⟩
  · exact foldl_append_nil _ _ (fun b _ => hbatch b) []
  · intro r
    simp [callSiliconFlow]
  · intro apiKey batch e hresp
    by_cases hk : apiKey = "" <;> simp [processBatch, callSiliconFlow, hresp, hk]

/-- Witness for C4 (amended): the concrete missing-key run returns `[]`, and
a concrete transport error is contained per batch. -/
theorem filter_missing_key_contained_witness :
    filterPapersWithLLM [c4Paper] "" c4RespErr c4Parse = [] ∧
    processBatch "sk-test" c4RespErr c4Parse [c4Paper] = [] :=
  ⟨(filter_missing_key_contained [c4Paper] c4RespErr c4Parse).1,
   (filter_missing_key_contained [c4Paper] c4RespErr c4Parse).2.2.2 "sk-test" [c4Paper]
     "network down" rfl⟩

/-! ### C5: reconciliation safety -/

theorem mkScored_id (o : ArxivPaper) (r : ScoreObj) : (mkScored o r).id = o.id := rfl

theorem reconcileBatch_mem_ids (batch : List ArxivPaper) (results : List ScoreObj) :
    ∀ a ∈ reconcileBatch batch results, a.id ∈ batch.map (fun p => p.id) := by
  induction results with
  | nil =>
    intro a ha
    simp [reconcileBatch] at ha
  | cons r rs ih =>
    intro a ha
    simp only [reconcileBatch, List.filterMap_cons] at ha
    cases hf : batch.find? (fun p => decide (p.id = r.id)) with
    | none =>
      rw [hf] at ha
      exact ih a ha
    | some o =>
      rw [hf] at ha
      rcases List.mem_cons.mp ha with hc | hc
      · rw [hc, mkScored_id]
        exact List.mem_map_of_mem _ (List.mem_of_find?_eq_some hf)
      · exact ih a hc

theorem reconcileBatch_length (batch : List ArxivPaper) (results : List ScoreObj) :
    (reconcileBatch batch results).length
      = (results.filter (fun r => decide (r.id ∈ batch.map (fun p => p.id)))).length := by
  induction results with
  | nil => rfl
  | cons r rs ih =>
    simp only [reconcileBatch, List.filterMap_cons, List.filter_cons]
    cases hf : batch.find? (fun p => decide (p.id = r.id)) with
    | none =>
      have hnot : r.id ∉ batch.map (fun p => p.id) := by
        intro hc
        rcases List.mem_map.mp hc with ⟨p, hp, hpid⟩
        have := List.find?_eq_none.mp hf p hp
        simp [hpid] at this
      simp only [hf]
      rw [if_neg (by simpa using hnot)]
      exact ih
    | some o =>
      have hpred := List.find?_some hf
      have hoid : o.id = r.id := by simpa using hpred
      have hin : r.id ∈ batch.map (fun p => p.id) :=
        hoid ▸ List.mem_map_of_mem _ (List.mem_of_find?_eq_some hf)
      simp only [hf]
      rw [if_pos (by simpa using hin)]
      simp only [List.length_cons]
      exact congrArg (fun n => n + 1) ih

theorem chunksAux_flatten {α : Type} (n : Nat) (hn : 0 < n) :
    ∀ (fuel : Nat) (l : List α), l.length ≤ fuel → (chunksAux n fuel l).flatten = l := by
  intro fuel
  induction fuel with
  | zero =>
    intro l hl
    cases l with
    | nil => rfl
    | cons x xs => simp at hl
  | succ f ih =>
    intro l hl
    cases l with
    | nil => rfl
    | cons x xs =>
      simp only [chunksAux, List.flatten_cons]
      rw [ih ((x :: xs).drop n) ?_, List.take_append_drop]
      rw [List.length_drop]
      simp only [List.length_cons] at hl ⊢
      omega

theorem chunksOf_flatten {α : Type} (n : Nat) (hn : 0 < n) (l : List α) :
    (chunksOf n l).flatten = l :=
  chunksAux_flatten n hn l.length l le_rfl

theorem mem_foldl_append {α β : Type} (f : β → List α) (l : List β) :
    ∀ (init : List α) (a : α),
    (a ∈ l.foldl (fun acc b => acc ++ f b) init ↔ a ∈ init ∨ ∃ b ∈ l, a ∈ f b) := by
  induction l with
  | nil => intro init a; simp
  | cons b bs ih =>
    intro init a
    simp only [List.foldl_cons]
    rw [ih (init ++ f b) a]
    simp only [List.mem_append, List.mem_cons]
    constructor
    · rintro ((h | h) | ⟨b', hb', h⟩)
      · exact Or.inl h
      · exact Or.inr ⟨b, Or.inl rfl, h⟩
      · exact Or.inr ⟨b', Or.inr hb', h⟩
    · rintro (h | ⟨b', hb' | hb', h⟩)
      · exact Or.inl (Or.inl h)
      · exact Or.inl (Or.inr (hb' ▸ h))
      · exact Or.inr ⟨b', hb', h⟩

/-- CLAIM C5. Reconciliation safety: every record the Relevance Filter emits
carries an identifier present in the original batch; a score object whose
identifier is unknown is dropped and never becomes a record (the output
length counts exactly the score objects whose identifiers match the batch);
and lifted through the batching, every identifier in `filterPapersWithLLM`'s
output occurs among the input papers. -/
theorem reconcile_identifier_safety (batch : List ArxivPaper) (results : List ScoreObj) :
    (∀ a ∈ reconcileBatch batch results, a.id ∈ batch.map (fun p => p.id)) ∧
    (reconcileBatch batch results).length
      = (results.filter (fun r => decide (r.id ∈ batch.map (fun p => p.id)))).length ∧
    (∀ (papers : List ArxivPaper) (apiKey : String)
      (resp : List ArxivPaper → Except String String) (parse : String → ScorerResp),
      ∀ a ∈ filterPapersWithLLM papers apiKey resp parse,
        a.id ∈ papers.map (fun p => p.id)) := by
  refine ⟨reconcileBatch_mem_ids batch results, reconcileBatch_length batch results, ?_⟩
  intro papers apiKey resp parse a ha
  rcases (mem_foldl_append _ _ _ _).mp ha with hc | ⟨b, hb, hab⟩
  · simp at hc
  · have haid : a.id ∈ b.map (fun p => p.id) := by
      have hab2 : a ∈ processBatch apiKey resp parse b := hab
      unfold processBatch at hab2
      revert hab2
      cases hcall : callSiliconFlow apiKey (resp b) with
      | error e =>
        intro hab2
        simp at hab2
      | ok content =>
        intro hab2
        have hab3 : a ∈ (match parse content with
            | ScorerResp.parseFail => []
            | ScorerResp.notArray => []
            | ScorerResp.scores rs => reconcileBatch b rs) := hab2
        cases hp : parse content with
        | parseFail =>
          rw [hp] at hab3
          simp at hab3
        | notArray =>
          rw [hp] at hab3
          simp at hab3
        | scores rs =>
          rw [hp] at hab3
          exact reconcileBatch_mem_ids b rs a hab3
    rcases List.mem_map.mp haid with ⟨p, hp, hpid⟩
    have hpin : p ∈ papers := by
      rw [← chunksOf_flatten 50 (by norm_num) papers]
      exact List.mem_flatten.mpr ⟨b, hb, hp⟩
    exact hpid ▸ List.mem_map_of_mem _ hpin

def c5A : ArxivPaper := ⟨"idA", "tA", "sA", [], 0, "idA", [], ""⟩

def c5B : ArxivPaper := ⟨"idB", "tB", "sB", [], 0, "idB", [], ""⟩

def c5Known : ScoreObj := ⟨"idA", 8, false, false, none, "ok"⟩

def c5Unknown : ScoreObj := ⟨"idZ", 9, true, true, some ["VLM"], "unknown id"⟩

/-- Witness for C5 at a concrete batch: one known, one unknown identifier. -/
theorem reconcile_identifier_safety_witness :
    (∀ a ∈ reconcileBatch [c5A, c5B] [c5Known, c5Unknown],
      a.id ∈ [c5A, c5B].map (fun p => p.id)) ∧
    (reconcileBatch [c5A, c5B] [c5Known, c5Unknown]).length
      = ([c5Known, c5Unknown].filter
          (fun r => decide (r.id ∈ [c5A, c5B].map (fun p => p.id)))).length ∧
    (∀ (papers : List ArxivPaper) (apiKey : String)
      (resp : List ArxivPaper → Except String String) (parse : String → ScorerResp),
      ∀ a ∈ filterPapersWithLLM papers apiKey resp parse,
        a.id ∈ papers.map (fun p => p.id)) :=
  reconcile_identifier_safety [c5A, c5B] [c5Known, c5Unknown]

/-- Concrete evaluation of the reconciliation: the unknown-id score object is
dropped, the known one is merged onto its original. -/
theorem reconcile_demo_eval :
    reconcileBatch [c5A, c5B] [c5Known, c5Unknown] = [mkScored c5A c5Known] := by
  decide

/-! ### Deep analysis (C6, C9) -/

/-- The three bounded free-text fields of one deep-analysis response
(`{innovations, methodology, value}`; a missing JSON field is `none`). -/
structure AnalysisResult where
  innovations : Option String
  methodology : Option String
  value : Option String
deriving DecidableEq

/-- `analyzeSingle` (lines 424-454): missing key or any per-item failure
(`env paper = none`) is caught and returns the paper unchanged; on success
the three analysis fields are overwritten with the parsed response. -/
def analyzeSingle (apiKey : String) (env : AnalyzedPaper → Option AnalysisResult)
    (paper : AnalyzedPaper) : AnalyzedPaper :=
  if apiKey = "" then paper
  else
    match env paper with
    | none => paper
    | some a =>
      { paper with
        innovations := a.innovations
        methodology := a.methodology
        value := a.value }

/-- `deepAnalyzePapersWithLLM` (lines 418-460): one independent call per
record; `Promise.all` yields the results in input order. -/
def deepAnalyzePapersWithLLM (papers : List AnalyzedPaper) (apiKey : String)
    (env : AnalyzedPaper → Option AnalysisResult) : List AnalyzedPaper :=
  papers.map (analyzeSingle apiKey env)

theorem analyzeSingle_id (apiKey : String) (env : AnalyzedPaper → Option AnalysisResult)
    (p : AnalyzedPaper) : (analyzeSingle apiKey env p).id = p.id := by
  unfold analyzeSingle
  by_cases h : apiKey = ""
  · simp [h]
  · cases env p <;> simp [h]

theorem deepAnalyze_map_id (papers : List AnalyzedPaper) (apiKey : String)
    (env : AnalyzedPaper → Option AnalysisResult) :
    (deepAnalyzePapersWithLLM papers apiKey env).map (fun p => p.id)
      = papers.map (fun p => p.id) := by
  unfold deepAnalyzePapersWithLLM
  rw [List.map_map]
  exact List.map_congr_left (fun p _ => analyzeSingle_id apiKey env p)

theorem analyzeSingle_of_failure (apiKey : String)
    (env : AnalyzedPaper → Option AnalysisResult) (p : AnalyzedPaper)
    (h : apiKey = "" ∨ env p = none) : analyzeSingle apiKey env p = p := by
  unfold analyzeSingle
  rcases h with h | h
  · simp [h]
  · by_cases hk : apiKey = ""
    · simp [hk]
    · simp [hk, h]

/-- CLAIM C6. Set-preservation of the Deep Analyzer: for every input
sequence with distinct identifiers, the output has the same length as the
input, every input identifier appears exactly once in the output, and on a
per-item failure (missing key, or a failed/unparsable call for that item)
that item appears in the output unmodified — in particular its three
analysis fields stay unset whenever they were unset on input. -/
theorem deepAnalyze_set_preservation (papers : List AnalyzedPaper) (apiKey : String)
    (env : AnalyzedPaper → Option AnalysisResult)
    (huniq : (papers.map (fun p => p.id)).Nodup) :
    (deepAnalyzePapersWithLLM papers apiKey env).length = papers.length ∧
    (∀ pid ∈ papers.map (fun p => p.id),
      ((deepAnalyzePapersWithLLM papers apiKey env).map (fun p => p.id)).count pid = 1) ∧
    (∀ (i : Nat) (h : i < papers.length),
      (apiKey = "" ∨ env (papers.get ⟨i, h⟩) = none) →
      (deepAnalyzePapersWithLLM papers apiKey env).get
          ⟨i, by simpa [deepAnalyzePapersWithLLM] using h⟩ = papers.get ⟨i, h⟩) := by
  refine ⟨by simp [deepAnalyzePapersWithLLM], ?_, ?_⟩
  · intro pid hpid
    rw [deepAnalyze_map_id]
    exact List.count_eq_one_of_mem huniq hpid
  · intro i h hfail
    unfold deepAnalyzePapersWithLLM
    simp only [List.get_eq_getElem, List.getElem_map]
    exact analyzeSingle_of_failure apiKey env _ hfail

/-- CLAIM C9. The Deep Analyzer preserves input order: the record at output
position `i` carries the same identifier as the input record at position
`i` (and the lengths agree), even though the spec only requires
set-preservation. -/
theorem deepAnalyze_order_preserving (papers : List AnalyzedPaper) (apiKey : String)
    (env : AnalyzedPaper → Option AnalysisResult) (i : Nat) (h : i < papers.length) :
    ((deepAnalyzePapersWithLLM papers apiKey env).get
        ⟨i, by simpa [deepAnalyzePapersWithLLM] using h⟩).id = (papers.get ⟨i, h⟩).id ∧
    (deepAnalyzePapersWithLLM papers apiKey env).length = papers.length := by
  constructor
  · unfold deepAnalyzePapersWithLLM
    simp only [List.get_eq_getElem, List.getElem_map]
    exact analyzeSingle_id apiKey env _
  · simp [deepAnalyzePapersWithLLM]

/-- Papers and environment for the C6/C9 witnesses: two distinct records,
the analysis succeeding on the first and failing on the second. -/
def q1 : AnalyzedPaper :=
  ⟨⟨"q1", "t1", "s1", [], 0, "q1", ["cs.AI"], ""⟩, 8, ["VLM"], true, false, "r1",
   none, none, none⟩

def q2 : AnalyzedPaper :=
  ⟨⟨"q2", "t2", "s2", [], 0, "q2", ["cs.CV"], ""⟩, 7, [], false, true, "r2",
   none, none, none⟩

def c6Env : AnalyzedPaper → Option AnalysisResult :=
  fun p => if p.id = "q1" then some ⟨some "i", some "m", some "v"⟩ else none

/-- Witness for C6 at the two-record input with a per-item failure on the
second record. -/
theorem deepAnalyze_set_preservation_witness :
    ([q1, q2].map (fun p => p.id)).Nodup ∧
    ((deepAnalyzePapersWithLLM [q1, q2] "sk-test" c6Env).length = [q1, q2].length ∧
      (∀ pid ∈ [q1, q2].map (fun p => p.id),
        ((deepAnalyzePapersWithLLM [q1, q2] "sk-test" c6Env).map (fun p => p.id)).count pid
          = 1) ∧
      (∀ (i : Nat) (h : i < [q1, q2].length),
        ("sk-test" = "" ∨ c6Env ([q1, q2].get ⟨i, h⟩) = none) →
        (deepAnalyzePapersWithLLM [q1, q2] "sk-test" c6Env).get
            ⟨i, by simpa [deepAnalyzePapersWithLLM] using h⟩ = [q1, q2].get ⟨i, h⟩)) :=
  ⟨by decide, deepAnalyze_set_preservation [q1, q2] "sk-test" c6Env (by decide)⟩

/-- Witness for C9 at position 1 of the two-record input. -/
theorem deepAnalyze_order_preserving_witness :
    (1 < [q1, q2].length) ∧
    (((deepAnalyzePapersWithLLM [q1, q2] "sk-test" c6Env).get
        ⟨1, by simpa [deepAnalyzePapersWithLLM] using (by decide : 1 < [q1, q2].length)⟩).id
      = ([q1, q2].get ⟨1, by decide⟩).id ∧
     (deepAnalyzePapersWithLLM [q1, q2] "sk-test" c6Env).length = [q1, q2].length) :=
  ⟨by decide, deepAnalyze_order_preserving [q1, q2] "sk-test" c6Env 1 (by decide)⟩

/-- Concrete evaluation of the Deep Analyzer: the failing record passes
through unmodified, the succeeding one gains the three fields, order kept. -/
theorem deepAnalyze_demo_eval :
    deepAnalyzePapersWithLLM [q1, q2] "sk-test" c6Env
      = [{ q1 with innovations := some "i", methodology := some "m", value := some "v" },
         q2] := by
  decide
